import Mathlib

/-!
Verification of the lease-arbitration / system-updater engine of
opensuse-wicked (`src/update.c`) and of the dhcp4 DBus service wrappers
(`dhcp4/dbus-api.c`), against its natural-language design specification.

The C code is embedded shallowly:
* pure helpers become Lean functions on inductive data,
* the in-place mutation of the per-kind `ni_updater_t` records becomes
  explicit state passing (`Updater` in, `Updater` out),
* the results of the external script executor (`ni_system_updater_run` in
  the source is an unimplemented stub that returns 0; the spec declares the
  executor an external collaborator, "invoked to back up, restore, or
  install settings for one kind; returns success/failure") are supplied by
  an explicit environment `ScriptEnv`,
* the pointer-level purge loop of `ni_system_update_all` is embedded with
  an explicit heap of list nodes, because its behaviour on consecutive
  stale nodes depends on the pointer manipulation itself (it writes through
  a pointer into a node that has just been freed; the model keeps the
  contents of freed nodes, which is the deterministic reading of that
  use-after-free under which every node keeps its value after `free`).
-/

set_option autoImplicit false

namespace Wicked

/-! ## Data model (`src/update.c`) -/

/-- Addrconf protocol kinds (`enum ni_addrconf_mode`): DHCP, static,
autoconf, and iBFT (firmware).  `__NI_ADDRCONF_MAX` is the number of
constructors; every value of this type is `< __NI_ADDRCONF_MAX`. -/
inductive AddrconfType where
  | dhcp
  | sttc
  | autoconf
  | ibft
  deriving DecidableEq, Repr

/-- Address families used by leases (`AF_INET` / `AF_INET6`). -/
inductive AddrFamily where
  | inet
  | inet6
  deriving DecidableEq, Repr

/-- Updater kinds that have a name in `ni_updater_name`
(`NI_ADDRCONF_UPDATE_HOSTNAME`, `NI_ADDRCONF_UPDATE_RESOLVER`).
Kinds without a name can never be enabled (`ni_system_updaters_init`
skips them before looking up the extension), and `ni_system_update_all`
only ever feeds leases to these two kinds, so the model carries just
these two. -/
inductive UpdateKind where
  | hostname
  | resolver
  deriving DecidableEq, Repr

/-- An address-configuration lease (`ni_addrconf_lease_t`), restricted to
the fields `update.c` reads: protocol type, address family, sequence
number, the two update-permission bits that `__ni_addrconf_should_update`
tests, and the presence/content of the hostname and resolver payloads. -/
structure Lease where
  type : AddrconfType
  family : AddrFamily
  seqno : Nat
  updateHostname : Bool
  updateResolver : Bool
  hostname : Option String
  resolver : Bool
  deriving DecidableEq, Repr

/-- An arbitration record (`ni_updater_source_t`) as an element of a Lean
list: copied sequence number, computed weight, and the (weak) lease
reference, `none` when the reference has been cleared. -/
structure Source where
  seqno : Nat
  weight : Nat
  lease : Option Lease
  deriving DecidableEq, Repr

/-- A per-kind updater (`struct ni_updater`).  The three `proc_*` script
pointers are modelled by their presence (`true` = non-NULL). -/
structure Updater where
  sources : List Source
  type : UpdateKind
  seqno : Nat
  have_backup : Bool
  enabled : Bool
  proc_backup : Bool
  proc_restore : Bool
  proc_install : Bool
  deriving DecidableEq, Repr

/-- `can_update_hostname`: the lease must carry the HOSTNAME update bit
and a non-NULL hostname. -/
def can_update_hostname (lease : Lease) : Bool :=
  lease.updateHostname && lease.hostname.isSome

/-- `can_update_resolver`: the lease must carry the RESOLVER update bit
and a non-NULL resolver payload. -/
def can_update_resolver (lease : Lease) : Bool :=
  lease.updateResolver && lease.resolver

/-! ## Registration / coalescing (`ni_objectmodel_updater_add_source`) -/

/-- The `addrconf_weight` table inside `ni_objectmodel_updater_add_source`:
a C array with designated initializers for `NI_ADDRCONF_DHCP` (5) and
`NI_ADDRCONF_IBFT` (10); all other entries are zero-initialized. -/
def ni_addrconf_weight : AddrconfType → Nat
  | .dhcp => 5
  | .ibft => 10
  | _ => 0

/-- Construction of a fresh `ni_updater_source_t` in
`ni_objectmodel_updater_add_source`: `calloc` zeroes the weight, then
`up->weight = 10 * addrconf_weight[lease->type]` (the guard
`lease->type < __NI_ADDRCONF_MAX` always holds for a value of the enum),
then `up->weight += (lease->family == AF_INET) ? 1 : 0`. -/
def ni_updater_source_new (lease : Lease) : Source :=
  { seqno := lease.seqno
    weight := 10 * ni_addrconf_weight lease.type
              + (if lease.family = AddrFamily.inet then 1 else 0)
    lease := some lease }

/-- `ni_objectmodel_updater_add_source`, at the level of the source list of
one updater: walk the list; a node whose stored seqno equals the lease's
seqno gets its lease reference refreshed and the walk stops; otherwise a
fresh node is appended at the tail (`*pos = up` with `pos` resting on the
terminal next pointer). -/
def ni_objectmodel_updater_add_source (sources : List Source) (lease : Lease) :
    List Source :=
  match sources with
  | [] => [ni_updater_source_new lease]
  | up :: rest =>
    if up.seqno = lease.seqno then
      { up with lease := some lease } :: rest
    else
      up :: ni_objectmodel_updater_add_source rest lease

/-! ## Selection (`ni_objectmodel_updater_select_source`) -/

/-- The loop of `ni_objectmodel_updater_select_source`: `best` starts NULL
and is replaced when it is NULL or when `src->weight > best->weight`
(strict comparison, so the first element of maximal weight is kept). -/
def selectLoop (best : Option Source) : List Source → Option Source
  | [] => best
  | src :: rest =>
    match best with
    | none => selectLoop (some src) rest
    | some b =>
      if src.weight > b.weight then selectLoop (some src) rest
      else selectLoop (some b) rest

/-- `ni_objectmodel_updater_select_source`: scan the updater's source list
keeping the running best.  Note that the loop inspects only the weight;
it does not test the lease reference. -/
def ni_objectmodel_updater_select_source (updater : Updater) : Option Source :=
  selectLoop none updater.sources

/-! ## Script steps (`ni_system_updater_backup` / `_restore` / `_install`)

The source runs a configured extension script through
`ni_system_updater_run`; in this snapshot that function is an
unimplemented stub (`return 0;`).  Modelled from the spec: the Update
Script Executor is an external collaborator that "returns
success/failure", so the result of each script invocation is supplied by
a `ScriptEnv` environment.  Everything around the invocation (guards,
state changes, return values) is translated from the source. -/

/-- Result of one script execution per kind, for one reconciliation pass. -/
structure ScriptEnv where
  backupOk : UpdateKind → Bool
  restoreOk : UpdateKind → Bool

/-- A record of a script invocation performed during a step or a pass. -/
inductive ScriptCall where
  | backup (kind : UpdateKind)
  | restore (kind : UpdateKind)
  | install (kind : UpdateKind)
  deriving DecidableEq, Repr

/-- Outcome of one updater step: the new updater state, the script
invocations it performed, and the C return value (`ni_bool_t`). -/
structure StepResult where
  updater : Updater
  calls : List ScriptCall
  ok : Bool
  deriving Repr

/-- `ni_system_updater_backup`: nothing to do if a backup is already held
or no backup script is configured; otherwise run the backup script, and
only on success record `have_backup`. -/
def ni_system_updater_backup (u : Updater) (env : ScriptEnv) : StepResult :=
  if u.have_backup then
    { updater := u, calls := [], ok := true }
  else if !u.proc_backup then
    { updater := u, calls := [], ok := true }
  else if !(env.backupOk u.type) then
    { updater := u, calls := [ScriptCall.backup u.type], ok := false }
  else
    { updater := { u with have_backup := true },
      calls := [ScriptCall.backup u.type], ok := true }

/-- `ni_system_updater_restore`: nothing to do if no backup is held or no
restore script is configured; otherwise run the restore script, and only
on success clear `have_backup`.  (The source does not touch
`updater->seqno` here.) -/
def ni_system_updater_restore (u : Updater) (env : ScriptEnv) : StepResult :=
  if !u.have_backup then
    { updater := u, calls := [], ok := true }
  else if !u.proc_restore then
    { updater := u, calls := [], ok := true }
  else if !(env.restoreOk u.type) then
    { updater := u, calls := [ScriptCall.restore u.type], ok := false }
  else
    { updater := { u with have_backup := false },
      calls := [ScriptCall.restore u.type], ok := true }

/-- The `switch (updater->type)` body of `ni_system_updater_install`: the
`NI_ADDRCONF_UPDATE_HOSTNAME` and `NI_ADDRCONF_UPDATE_RESOLVER` case
labels carry no statements and fall through, together with `default:`,
into the "file format not understood" error, which disables the updater
and returns 0.  The statements after the switch
(`updater->seqno = lease->seqno; return 1;`) are unreachable. -/
def ni_system_updater_install_switch (u : Updater) (calls : List ScriptCall) :
    StepResult :=
  match u.type with
  | .hostname => { updater := { u with enabled := false }, calls := calls, ok := false }
  | .resolver => { updater := { u with enabled := false }, calls := calls, ok := false }

/-- `ni_system_updater_install`: first
`if (!updater->have_backup && !ni_system_updater_backup(updater)) return 0;`
(backup only attempted when no backup is held; a backup failure aborts the
install), then the switch on the updater type.  The lease argument is only
ever dereferenced by the unreachable statement after the switch, so it is
carried as an `Option` exactly as `up->lease` is passed at the call site. -/
def ni_system_updater_install (u : Updater) (_lease : Option Lease)
    (env : ScriptEnv) : StepResult :=
  if !u.have_backup then
    let b := ni_system_updater_backup u env
    if !b.ok then
      { updater := b.updater, calls := b.calls, ok := false }
    else
      ni_system_updater_install_switch b.updater b.calls
  else
    ni_system_updater_install_switch u []

/-! ## The purge loop of `ni_system_update_all`, at pointer level

```
for (pos = &updater->sources; (up = *pos) != NULL; pos = &up->next) {
        if (up->lease == NULL) {
                *pos = up->next;
                free(up);
        }
}
```

`pos` is a pointer to a pointer: either the list-head field of the
updater or the `next` field of some node.  After unlinking a node the
loop update still executes `pos = &up->next`, stepping `pos` into the
node that has just been freed; the next unlink then writes through that
freed node instead of through the live predecessor.  The heap is a list
of nodes addressed by index; `free` only records the address in `freed`
(the node keeps its contents, the reading of the use-after-free under
which memory is unchanged by `free`). -/

/-- A heap node: the `ni_updater_source_t` payload plus the `next`
pointer (an index into the heap, `none` for NULL). -/
structure HNode where
  seqno : Nat
  weight : Nat
  lease : Option Lease
  next : Option Nat
  deriving DecidableEq, Repr

/-- Placeholder for an out-of-range heap access (never hit on the heaps
built by `sourcesToHeap`). -/
def dfltNode : HNode := { seqno := 0, weight := 0, lease := none, next := none }

/-- The purge loop's heap: the nodes, the updater's list-head pointer, and
the addresses already passed to `free`. -/
structure PtrHeap where
  nodes : List HNode
  hd : Option Nat
  freed : List Nat
  deriving DecidableEq, Repr

/-- The lvalue `pos` points at: the list-head field, or the `next` field
of the node at index `i`. -/
inductive PPos where
  | atHead
  | atNext (i : Nat)
  deriving DecidableEq, Repr

/-- Read `*pos`. -/
def readPos (h : PtrHeap) : PPos → Option Nat
  | .atHead => h.hd
  | .atNext i => (h.nodes.getD i dfltNode).next

/-- Write `*pos = v`. -/
def writePos (h : PtrHeap) (p : PPos) (v : Option Nat) : PtrHeap :=
  match p with
  | .atHead => { h with hd := v }
  | .atNext i =>
    { h with nodes := h.nodes.set i { h.nodes.getD i dfltNode with next := v } }

/-- One-to-one translation of the purge loop.  Each iteration: read
`up = *pos`; stop at NULL; if `up->lease == NULL` then `*pos = up->next`
and `free(up)`; in either case the loop update sets `pos = &up->next`.
The fuel only bounds the iteration count; on the heaps built from a
source list (next pointers strictly increasing) `length + 1` iterations
always reach the terminating NULL. -/
def purgeLoop : Nat → PtrHeap → PPos → PtrHeap
  | 0, h, _ => h
  | fuel + 1, h, pos =>
    match readPos h pos with
    | none => h
    | some i =>
      let up := h.nodes.getD i dfltNode
      if up.lease = none then
        let h1 := writePos h pos up.next
        purgeLoop fuel { h1 with freed := i :: h1.freed } (PPos.atNext i)
      else
        purgeLoop fuel h (PPos.atNext i)

/-- Lay a source list out as a linked chain in the heap: node `i` holds
element `i` and points at node `i + 1`. -/
def buildNodes : List Source → Nat → List HNode
  | [], _ => []
  | [s], _ => [{ seqno := s.seqno, weight := s.weight, lease := s.lease, next := none }]
  | s :: rest, i =>
    { seqno := s.seqno, weight := s.weight, lease := s.lease, next := some (i + 1) }
      :: buildNodes rest (i + 1)

/-- The heap representing `updater->sources`. -/
def sourcesToHeap (sources : List Source) : PtrHeap :=
  { nodes := buildNodes sources 0
    hd := if sources.isEmpty then none else some 0
    freed := [] }

/-- Collect the chain reachable from a pointer (what a later traversal of
`updater->sources` observes). -/
def chainFrom (nodes : List HNode) : Nat → Option Nat → List Source
  | 0, _ => []
  | _, none => []
  | fuel + 1, some i =>
    let nd := nodes.getD i dfltNode
    { seqno := nd.seqno, weight := nd.weight, lease := nd.lease }
      :: chainFrom nodes fuel nd.next

/-- The net effect of the purge loop on an updater's source list: build
the heap, run the loop from `&updater->sources`, read the chain back. -/
def purgeSources (sources : List Source) : List Source :=
  let h := purgeLoop (sources.length + 1) (sourcesToHeap sources) PPos.atHead
  chainFrom h.nodes (h.nodes.length + 1) h.hd

/-! ## The reconciliation pass (`ni_system_update_all`) -/

/-- The global `updaters[]` array, restricted to the two kinds that can
ever be enabled (see `UpdateKind`).  `ni_system_updaters_init` has already
run: the `enabled` / `proc_*` fields hold its outcome. -/
structure SysState where
  hostnameU : Updater
  resolverU : Updater
  deriving Repr

/-- Outcome of one `ni_system_update_all` call: the new updater states,
the script invocations of the pass, and the C return value. -/
structure PassResult where
  st : SysState
  calls : List ScriptCall
  ret : Bool
  deriving Repr

/-- Step 1 of the pass: `up->lease = NULL` for every source of an
updater (mark every source "unseen"). -/
def ni_updater_clear_sources (u : Updater) : Updater :=
  { u with sources := u.sources.map fun s => { s with lease := none } }

/-- Step 2 of the pass for one lease: feed it to the hostname updater if
`can_update_hostname`, and to the resolver updater if
`can_update_resolver` (the add happens whether or not the updater is
enabled). -/
def ni_update_all_mark (st : SysState) (lease : Lease) : SysState :=
  let st1 :=
    if can_update_hostname lease then
      { st with hostnameU :=
          { st.hostnameU with
            sources := ni_objectmodel_updater_add_source st.hostnameU.sources lease } }
    else st
  if can_update_resolver lease then
    { st1 with resolverU :=
        { st1.resolverU with
          sources := ni_objectmodel_updater_add_source st1.resolverU.sources lease } }
  else st1

/-- Step 3 of the pass for one kind: disabled updaters are skipped
(`continue`); enabled ones run the purge loop, then select; no winner
runs restore, a winner with a sequence number different from the
installed one runs install (with `up->lease` as argument), a matching
winner is a no-op. -/
def ni_update_all_process_kind (u : Updater) (env : ScriptEnv) :
    Updater × List ScriptCall :=
  if !u.enabled then
    (u, [])
  else
    let u1 := { u with sources := purgeSources u.sources }
    match ni_objectmodel_updater_select_source u1 with
    | none =>
      let r := ni_system_updater_restore u1 env
      (r.updater, r.calls)
    | some up =>
      if u1.seqno ≠ up.seqno then
        let r := ni_system_updater_install u1 up.lease env
        (r.updater, r.calls)
      else
        (u1, [])

/-- `ni_system_update_all`: clear every source's lease reference, re-mark
from the current leases of all devices (flattened here into one list, in
iteration order), then process each kind in enum order.  The function
returns 1 unconditionally. -/
def ni_system_update_all (st : SysState) (leases : List Lease)
    (env : ScriptEnv) : PassResult :=
  let st1 : SysState :=
    { hostnameU := ni_updater_clear_sources st.hostnameU
      resolverU := ni_updater_clear_sources st.resolverU }
  let st2 := leases.foldl ni_update_all_mark st1
  let ph := ni_update_all_process_kind st2.hostnameU env
  let pr := ni_update_all_process_kind st2.resolverU env
  { st := { hostnameU := ph.1, resolverU := pr.1 }
    calls := ph.2 ++ pr.2
    ret := true }

/-- `ni_system_update_from_lease`: run a full pass; return -1 when the
pass reports failure and 0 otherwise.  The lease argument is unused (the
caller has already updated the device's lease list). -/
def ni_system_update_from_lease (_lease : Lease) (st : SysState)
    (leases : List Lease) (env : ScriptEnv) : PassResult × Int :=
  let r := ni_system_update_all st leases env
  if !r.ret then (r, -1) else (r, 0)

/-! ## The dhcp4 DBus service (`dhcp4/dbus-api.c`)

`__wicked_dbus_dhcp4_acquire_svc` and `__wicked_dbus_dhcp4_drop_svc` are
translated from the source.  Their external collaborators are not part of
this repository snapshot and are supplied as oracle parameters:
`__wicked_dbus_set_addrconf_request` (the request-dict parser, which sets
its own DBus error on failure) as `parse : Option DBusErr`,
`ni_dhcp_acquire` / `ni_dhcp_release` as integer return values, and
`ni_strerror` as `strerror : Int → String`. -/

/-- The DBus error domains the two methods use:
`DBUS_ERROR_INVALID_ARGS` and `DBUS_ERROR_FAILED`. -/
inductive DBusErrName where
  | invalidArgs
  | failed
  deriving DecidableEq, Repr

/-- A DBus error: machine-readable domain plus human-readable message. -/
structure DBusErr where
  name : DBusErrName
  message : String
  deriving DecidableEq, Repr

/-- Observable outcome of one `acquire` call: the `dbus_bool_t` return,
the DBus error (if any), and whether `ni_dhcp_acquire` was invoked
(negotiation attempted). -/
structure AcquireResult where
  ret : Bool
  error : Option DBusErr
  acquireCalled : Bool
  deriving DecidableEq, Repr

/-- `__wicked_dbus_dhcp4_acquire_svc`: with zero arguments, fail with
`DBUS_ERROR_INVALID_ARGS` before anything else; if the request dict
cannot be parsed, fail with the parser's error; if `ni_dhcp_acquire`
returns a negative code, fail with `DBUS_ERROR_FAILED` and the message
`"Cannot configure interface <ifname>: <ni_strerror(rv)>"`; otherwise
return TRUE right away (the exchange completes asynchronously). -/
def __wicked_dbus_dhcp4_acquire_svc (ifname : String) (argc : Nat)
    (parse : Option DBusErr) (acquireRv : Int) (strerror : Int → String) :
    AcquireResult :=
  if argc = 0 then
    { ret := false
      error := some { name := DBusErrName.invalidArgs
                      message := "Missing arguments in __wicked_dbus_dhcp4_acquire_svc" }
      acquireCalled := false }
  else
    match parse with
    | some e => { ret := false, error := some e, acquireCalled := false }
    | none =>
      if acquireRv < 0 then
        { ret := false
          error := some { name := DBusErrName.failed
                          message := "Cannot configure interface " ++ ifname
                                     ++ ": " ++ strerror acquireRv }
          acquireCalled := true }
      else
        { ret := true, error := none, acquireCalled := true }

/-- A DBus variant argument as `drop` sees it: a byte array or some other
variant shape. -/
inductive DBusValue where
  | byteArray (bytes : List Nat)
  | nonArray
  deriving DecidableEq, Repr

/-- `ni_dbus_variant_get_byte_array_minmax`: succeeds only on a byte
array whose length lies in `[minlen, maxlen]`. -/
def ni_dbus_variant_get_byte_array_minmax (v : DBusValue)
    (minlen maxlen : Nat) : Option (List Nat) :=
  match v with
  | .byteArray bytes =>
    if minlen ≤ bytes.length ∧ bytes.length ≤ maxlen then some bytes else none
  | .nonArray => none

/-- Observable outcome of one `drop` call: the `dbus_bool_t` return, the
DBus error (if any), and the uuid passed to `ni_dhcp_release` (`none`
when release was never attempted). -/
structure DropResult where
  ret : Bool
  error : Option DBusErr
  releaseCalledWith : Option (List Nat)
  deriving DecidableEq, Repr

/-- The tail of `__wicked_dbus_dhcp4_drop_svc`: call
`ni_dhcp_release(dev, &uuid)`; a negative return becomes
`DBUS_ERROR_FAILED` with the message
`"Unable to drop DHCP lease for interface <ifname>: <ni_strerror(rv)>"`. -/
def ni_dhcp_release_step (ifname : String) (uuid : List Nat)
    (releaseRv : List Nat → Int) (strerror : Int → String) : DropResult :=
  if releaseRv uuid < 0 then
    { ret := false
      error := some { name := DBusErrName.failed
                      message := "Unable to drop DHCP lease for interface " ++ ifname
                                 ++ ": " ++ strerror (releaseRv uuid) }
      releaseCalledWith := some uuid }
  else
    { ret := true, error := none, releaseCalledWith := some uuid }

/-- `__wicked_dbus_dhcp4_drop_svc`: the uuid buffer starts zeroed
(`memset`); with one argument the 16-byte uuid is extracted
(`minmax 16 16`), and a failed extraction yields
`DBUS_ERROR_INVALID_ARGS` ("bad uuid argument") without attempting the
release; otherwise the (possibly still all-zero) uuid is handed to
`ni_dhcp_release`. -/
def __wicked_dbus_dhcp4_drop_svc (ifname : String) (arg : Option DBusValue)
    (releaseRv : List Nat → Int) (strerror : Int → String) : DropResult :=
  match arg with
  | some v =>
    match ni_dbus_variant_get_byte_array_minmax v 16 16 with
    | none =>
      { ret := false
        error := some { name := DBusErrName.invalidArgs, message := "bad uuid argument" }
        releaseCalledWith := none }
    | some uuid => ni_dhcp_release_step ifname uuid releaseRv strerror
  | none => ni_dhcp_release_step ifname (List.replicate 16 0) releaseRv strerror

/-! ## Specification-side helper functions used by the theorems -/

/-- The running best maintained by the selection loop: the first element
of maximal weight among `b :: l`. -/
def firstMax (b : Source) : List Source → Source
  | [] => b
  | s :: rest => firstMax (if s.weight > b.weight then s else b) rest

/-! ## Concrete fixtures used by the claims -/

/-- Modelled from the spec: the Update Script Executor always reporting
success ("returns success/failure"; the executor itself is an external
collaborator, `ni_system_updater_run` being an unimplemented stub in this
snapshot). -/
def envAllOk : ScriptEnv :=
  { backupOk := fun _ => true, restoreOk := fun _ => true }

/-- Modelled from the spec: an executor whose backup script fails and
whose restore script succeeds. -/
def envBackupFails : ScriptEnv :=
  { backupOk := fun _ => false, restoreOk := fun _ => true }

/-- A fully configured, enabled hostname updater in its initial state
(fresh from `ni_system_updaters_init` with all three scripts present). -/
def hostnameU0 : Updater :=
  { sources := [], type := UpdateKind.hostname, seqno := 0,
    have_backup := false, enabled := true,
    proc_backup := true, proc_restore := true, proc_install := true }

/-- A resolver updater left disabled by `ni_system_updaters_init`
(no `resolver-updater` extension configured). -/
def resolverU0 : Updater :=
  { sources := [], type := UpdateKind.resolver, seqno := 0,
    have_backup := false, enabled := false,
    proc_backup := false, proc_restore := false, proc_install := false }

/-- Scenario A, first lease: DHCP, IPv4, seqno 1, carrying a hostname. -/
def dhcpLeaseA : Lease :=
  { type := AddrconfType.dhcp, family := AddrFamily.inet, seqno := 1,
    updateHostname := true, updateResolver := false,
    hostname := some "dhcp-name", resolver := false }

/-- Scenario A, second lease: firmware (iBFT), seqno 2, carrying a
hostname. -/
def fwLeaseA : Lease :=
  { type := AddrconfType.ibft, family := AddrFamily.inet6, seqno := 2,
    updateHostname := true, updateResolver := false,
    hostname := some "fw-name", resolver := false }

/-- The reconciliation pass of Scenario A: both hostname leases present,
hostname updater enabled and freshly initialized, scripts succeeding. -/
def scenarioA : PassResult :=
  ni_system_update_all { hostnameU := hostnameU0, resolverU := resolverU0 }
    [dhcpLeaseA, fwLeaseA] envAllOk

/-- A low-weight source with a cleared (stale) lease reference. -/
def srcLow : Source := { seqno := 1, weight := 51, lease := none }

/-- A high-weight source with a cleared (stale) lease reference. -/
def srcHigh : Source := { seqno := 2, weight := 100, lease := none }

/-- An updater holding a single source whose lease reference is empty. -/
def staleOnlyU : Updater := { hostnameU0 with sources := [srcLow] }

/-- An updater holding two sources of different weights. -/
def twoSrcU : Updater := { hostnameU0 with sources := [srcLow, srcHigh] }

/-- An enabled hostname updater holding two consecutive stale sources
and a backup, entering a pass in which every lease has been withdrawn. -/
def staleU2 : Updater :=
  { hostnameU0 with sources := [srcLow, srcHigh], have_backup := true }

/-- The all-leases-withdrawn reconciliation pass over `staleU2`. -/
def stalePass : PassResult :=
  ni_system_update_all { hostnameU := staleU2, resolverU := resolverU0 }
    [] envAllOk

/-- An updater holding a backup and a non-sentinel installed seqno,
about to run a (successful) restore. -/
def u4cex : Updater :=
  { hostnameU0 with seqno := 5, have_backup := true }

/-- The device name used by the DBus witnesses. -/
def devEth0 : String := "eth0"

/-- An `ni_strerror` oracle mapping every code to one message. -/
def strerrGeneral : Int → String := fun _ => "General failure"

/-- An `ni_dhcp_release` oracle that always succeeds. -/
def relZero : List Nat → Int := fun _ => 0

/-- Three distinct leases sharing sequence number 7. -/
def leaseSeq7a : Lease :=
  { dhcpLeaseA with seqno := 7, hostname := some "a" }

/-- Second lease with sequence number 7. -/
def leaseSeq7b : Lease :=
  { dhcpLeaseA with seqno := 7, hostname := some "b" }

/-- Third lease with sequence number 7. -/
def leaseSeq7c : Lease :=
  { fwLeaseA with seqno := 7 }

/-! ## Selection: helper lemmas -/

theorem selectLoop_eq_firstMax (l : List Source) :
    ∀ b : Source, selectLoop (some b) l = some (firstMax b l) := by
  induction l with
  | nil => intro b; rfl
  | cons s rest ih =>
    intro b
    by_cases h : s.weight > b.weight
    · show (if s.weight > b.weight then selectLoop (some s) rest
            else selectLoop (some b) rest) = some (firstMax b (s :: rest))
      rw [if_pos h, show firstMax b (s :: rest)
            = firstMax (if s.weight > b.weight then s else b) rest from rfl,
          if_pos h]
      exact ih s
    · show (if s.weight > b.weight then selectLoop (some s) rest
            else selectLoop (some b) rest) = some (firstMax b (s :: rest))
      rw [if_neg h, show firstMax b (s :: rest)
            = firstMax (if s.weight > b.weight then s else b) rest from rfl,
          if_neg h]
      exact ih b

theorem firstMax_spec (l : List Source) :
    ∀ b : Source,
      (∃ pre post, b :: l = pre ++ firstMax b l :: post ∧
         ∀ s ∈ pre, s.weight < (firstMax b l).weight) ∧
      (∀ s ∈ b :: l, s.weight ≤ (firstMax b l).weight) := by
  induction l with
  | nil =>
    intro b
    refine ⟨⟨[], [], rfl, ?_⟩, ?_⟩
    · intro s hs; exact absurd hs (List.not_mem_nil s)
    · intro s hs
      have hsb : s = b := by simpa using hs
      subst hsb
      exact Nat.le_refl _
  | cons s rest ih =>
    intro b
    have hfm : firstMax b (s :: rest)
        = firstMax (if s.weight > b.weight then s else b) rest := rfl
    by_cases hgt : s.weight > b.weight
    · rw [hfm, if_pos hgt]
      obtain ⟨⟨pre, post, hdec, hpre⟩, hle⟩ := ih s
      have hsc : s.weight ≤ (firstMax s rest).weight :=
        hle s (List.mem_cons_self s rest)
      refine ⟨⟨b :: pre, post, ?_, ?_⟩, ?_⟩
      · rw [List.cons_append]
        exact congrArg (List.cons b) hdec
      · intro t ht
        rcases List.mem_cons.mp ht with rfl | htp
        · exact lt_of_lt_of_le hgt hsc
        · exact hpre t htp
      · intro t ht
        rcases List.mem_cons.mp ht with rfl | htp
        · exact le_of_lt (lt_of_lt_of_le hgt hsc)
        · exact hle t htp
    · rw [hfm, if_neg hgt]
      have hsb : s.weight ≤ b.weight := Nat.le_of_not_lt hgt
      obtain ⟨⟨pre, post, hdec, hpre⟩, hle⟩ := ih b
      cases pre with
      | nil =>
        have hc : firstMax b rest = b := by
          injection hdec with h1 h2; exact h1.symm
        have hpost : post = rest := by
          injection hdec with h1 h2; exact h2.symm
        refine ⟨⟨[], s :: rest, ?_, ?_⟩, ?_⟩
        · rw [hc, List.nil_append]
        · intro t ht; exact absurd ht (List.not_mem_nil t)
        · intro t ht
          rcases List.mem_cons.mp ht with rfl | htp
          · rw [hc]
          · rcases List.mem_cons.mp htp with rfl | htr
            · rw [hc]; exact hsb
            · exact hle t (List.mem_cons_of_mem b htr)
      | cons p pre2 =>
        have h1 : b = p := by injection hdec
        subst h1
        have h2 : rest = pre2 ++ firstMax b rest :: post := by
          injection hdec
        have hbc : b.weight < (firstMax b rest).weight :=
          hpre b (List.mem_cons_self b pre2)
        refine ⟨⟨b :: s :: pre2, post, ?_, ?_⟩, ?_⟩
        · rw [List.cons_append, List.cons_append, ← h2]
        · intro t ht
          rcases List.mem_cons.mp ht with rfl | ht2
          · exact hbc
          · rcases List.mem_cons.mp ht2 with rfl | ht3
            · exact lt_of_le_of_lt hsb hbc
            · exact hpre t (List.mem_cons_of_mem b ht3)
        · intro t ht
          rcases List.mem_cons.mp ht with rfl | ht2
          · exact le_of_lt hbc
          · rcases List.mem_cons.mp ht2 with rfl | ht3
            · exact le_trans hsb (le_of_lt hbc)
            · exact hle t (List.mem_cons_of_mem b ht3)

/-- Claim C2 (amended): `select` returns the Source of strictly maximal
weight among all Sources in the updater's list, regardless of the lease
reference; ties resolve to the earliest-registered Source (every Source
before the winner is strictly lighter); it returns none exactly when the
Source list is empty. -/
theorem claim_C2_theorem (u : Updater) :
    (ni_objectmodel_updater_select_source u = none ↔ u.sources = []) ∧
    ∀ b : Source, ni_objectmodel_updater_select_source u = some b →
      (∃ pre post, u.sources = pre ++ b :: post ∧
         ∀ s ∈ pre, s.weight < b.weight) ∧
      ∀ s ∈ u.sources, s.weight ≤ b.weight := by
  unfold ni_objectmodel_updater_select_source
  cases hs : u.sources with
  | nil =>
    constructor
    · simp [selectLoop]
    · intro b hb
      simp [selectLoop] at hb
  | cons s rest =>
    have h0 : selectLoop none (s :: rest) = selectLoop (some s) rest := rfl
    rw [h0, selectLoop_eq_firstMax rest s]
    constructor
    · simp
    · intro b hb
      obtain rfl : firstMax s rest = b := Option.some.inj hb
      exact firstMax_spec rest s

/-- Claim C2, counterexample: an updater whose only Source has an empty
lease reference.  The claim requires `select` to return none there (and
an empty-reference Source never to win); the code returns that very
Source. -/
theorem claim_C2_counterexample :
    srcLow.lease = none ∧
    ni_objectmodel_updater_select_source staleOnlyU = some srcLow := by
  exact ⟨rfl, rfl⟩

/-- Claim C2, witness: the amended characterization applied to a
two-source updater whose heavier Source (weight 100) wins. -/
theorem claim_C2_witness :
    (∃ pre post, twoSrcU.sources = pre ++ srcHigh :: post ∧
       ∀ s ∈ pre, s.weight < srcHigh.weight) ∧
    ∀ s ∈ twoSrcU.sources, s.weight ≤ srcHigh.weight :=
  (claim_C2_theorem twoSrcU).2 srcHigh rfl

/-! ## Registration / coalescing: helper lemmas -/

theorem add_source_length_of_has (lease : Lease) :
    ∀ ss : List Source, (∃ s ∈ ss, s.seqno = lease.seqno) →
      (ni_objectmodel_updater_add_source ss lease).length = ss.length := by
  intro ss
  induction ss with
  | nil => intro h; simp at h
  | cons up rest ih =>
    intro h
    by_cases hup : up.seqno = lease.seqno
    · simp [ni_objectmodel_updater_add_source, hup]
    · have hrest : ∃ s ∈ rest, s.seqno = lease.seqno := by
        rcases h with ⟨s, hmem, hseq⟩
        rcases List.mem_cons.mp hmem with rfl | h2
        · exact absurd hseq hup
        · exact ⟨s, h2, hseq⟩
      simp [ni_objectmodel_updater_add_source, hup, ih hrest]

theorem add_source_length_of_not_has (lease : Lease) :
    ∀ ss : List Source, (¬ ∃ s ∈ ss, s.seqno = lease.seqno) →
      (ni_objectmodel_updater_add_source ss lease).length = ss.length + 1 := by
  intro ss
  induction ss with
  | nil => intro _; rfl
  | cons up rest ih =>
    intro h
    have hup : up.seqno ≠ lease.seqno := fun he =>
      h ⟨up, List.mem_cons_self up rest, he⟩
    have hrest : ¬ ∃ s ∈ rest, s.seqno = lease.seqno := fun ⟨s, hmem, hseq⟩ =>
      h ⟨s, List.mem_cons_of_mem up hmem, hseq⟩
    simp [ni_objectmodel_updater_add_source, hup, ih hrest]

theorem add_source_has (lease : Lease) :
    ∀ ss : List Source,
      ∃ s ∈ ni_objectmodel_updater_add_source ss lease, s.seqno = lease.seqno := by
  intro ss
  induction ss with
  | nil =>
    exact ⟨ni_updater_source_new lease, List.mem_singleton_self _, rfl⟩
  | cons up rest ih =>
    by_cases hup : up.seqno = lease.seqno
    · refine ⟨{ up with lease := some lease }, ?_, hup⟩
      simp [ni_objectmodel_updater_add_source, hup]
    · rcases ih with ⟨s, hmem, hseq⟩
      refine ⟨s, ?_, hseq⟩
      simp [ni_objectmodel_updater_add_source, hup]
      exact Or.inr hmem

theorem foldl_add_source_length (n : Nat) :
    ∀ (ls : List Lease) (ss : List Source), (∀ m ∈ ls, m.seqno = n) →
      (∃ s ∈ ss, s.seqno = n) →
      (List.foldl ni_objectmodel_updater_add_source ss ls).length = ss.length := by
  intro ls
  induction ls with
  | nil => intro ss _ _; rfl
  | cons m ms ih =>
    intro ss hall hhas
    have hm : m.seqno = n := hall m (List.mem_cons_self m ms)
    have hhas_m : ∃ s ∈ ss, s.seqno = m.seqno := by rw [hm]; exact hhas
    have hhas_next : ∃ s ∈ ni_objectmodel_updater_add_source ss m, s.seqno = n := by
      rcases add_source_has m ss with ⟨s, hmem, hseq⟩
      exact ⟨s, hmem, hseq.trans hm⟩
    rw [List.foldl_cons, ih (ni_objectmodel_updater_add_source ss m)
          (fun t ht => hall t (List.mem_cons_of_mem m ht)) hhas_next,
        add_source_length_of_has m ss hhas_m]

theorem add_source_refresh (lease : Lease) :
    ∀ (pre : List Source) (src : Source) (post : List Source),
      src.seqno = lease.seqno → (∀ t ∈ pre, t.seqno ≠ lease.seqno) →
      ni_objectmodel_updater_add_source (pre ++ src :: post) lease
        = pre ++ { src with lease := some lease } :: post := by
  intro pre
  induction pre with
  | nil =>
    intro src post h1 _
    simp [ni_objectmodel_updater_add_source, h1]
  | cons p pre2 ih =>
    intro src post h1 h2
    have hp : p.seqno ≠ lease.seqno := h2 p (List.mem_cons_self p pre2)
    simp only [List.cons_append, ni_objectmodel_updater_add_source, if_neg hp,
      List.append_eq]
    rw [ih src post h1 (fun t ht => h2 t (List.mem_cons_of_mem p ht))]

theorem add_source_append (lease : Lease) :
    ∀ ss : List Source, (∀ s ∈ ss, s.seqno ≠ lease.seqno) →
      ni_objectmodel_updater_add_source ss lease
        = ss ++ [ni_updater_source_new lease] := by
  intro ss
  induction ss with
  | nil => intro _; rfl
  | cons up rest ih =>
    intro h
    have hup : up.seqno ≠ lease.seqno := h up (List.mem_cons_self up rest)
    simp only [ni_objectmodel_updater_add_source, if_neg hup, List.cons_append,
      List.cons.injEq, true_and]
    exact ih (fun t ht => h t (List.mem_cons_of_mem up ht))

/-- Claim C6: `addSource` is idempotent per (kind, seqno).  For any
sequence of calls whose leases share one sequence number the Source list
grows by at most one entry, and a call whose seqno matches an existing
Source refreshes that Source's lease reference in place instead of
appending a duplicate. -/
theorem claim_C6_theorem (n : Nat) (ls : List Lease) (ss : List Source)
    (hall : ∀ m ∈ ls, m.seqno = n) :
    (List.foldl ni_objectmodel_updater_add_source ss ls).length ≤ ss.length + 1 ∧
    ∀ (lease : Lease) (pre post : List Source) (src : Source),
      src.seqno = lease.seqno → (∀ t ∈ pre, t.seqno ≠ lease.seqno) →
      ni_objectmodel_updater_add_source (pre ++ src :: post) lease
        = pre ++ { src with lease := some lease } :: post := by
  constructor
  · cases ls with
    | nil => exact Nat.le_succ ss.length
    | cons m ms =>
      have hm : m.seqno = n := hall m (List.mem_cons_self m ms)
      have htail : ∀ t ∈ ms, t.seqno = n :=
        fun t ht => hall t (List.mem_cons_of_mem m ht)
      have hhas : ∃ s ∈ ni_objectmodel_updater_add_source ss m, s.seqno = n := by
        rcases add_source_has m ss with ⟨s, hmem, hseq⟩
        exact ⟨s, hmem, hseq.trans hm⟩
      rw [List.foldl_cons,
          foldl_add_source_length n ms (ni_objectmodel_updater_add_source ss m)
            htail hhas]
      by_cases hs : ∃ s ∈ ss, s.seqno = m.seqno
      · rw [add_source_length_of_has m ss hs]; exact Nat.le_succ ss.length
      · rw [add_source_length_of_not_has m ss hs]
  · exact fun lease pre post src h1 h2 => add_source_refresh lease pre src post h1 h2

/-- Claim C6, witness: three leases sharing seqno 7 folded into an empty
source list leave at most one entry, and an in-place refresh of a
matching source. -/
theorem claim_C6_witness :
    (List.foldl ni_objectmodel_updater_add_source ([] : List Source)
        [leaseSeq7a, leaseSeq7b, leaseSeq7c]).length
      ≤ List.length ([] : List Source) + 1 ∧
    ∀ (lease : Lease) (pre post : List Source) (src : Source),
      src.seqno = lease.seqno → (∀ t ∈ pre, t.seqno ≠ lease.seqno) →
      ni_objectmodel_updater_add_source (pre ++ src :: post) lease
        = pre ++ { src with lease := some lease } :: post :=
  claim_C6_theorem 7 [leaseSeq7a, leaseSeq7b, leaseSeq7c] [] (by decide)

/-- The weight `ni_objectmodel_updater_add_source` computes for a fresh
source, written as the specification does: ten times the per-protocol
constant (5 for DHCP, 10 for firmware/iBFT, 0 otherwise) plus the IPv4
bonus bit. -/
theorem source_new_weight (l : Lease) :
    (ni_updater_source_new l).weight
      = 10 * (match l.type with
              | AddrconfType.dhcp => 5
              | AddrconfType.ibft => 10
              | AddrconfType.sttc => 0
              | AddrconfType.autoconf => 0)
        + (if l.family = AddrFamily.inet then 1 else 0) := by
  rcases l with ⟨t, f, sq, uh, ur, hn, rv⟩
  cases t <;> rfl

/-- Claim C7: a lease whose seqno is new for the kind is appended as a
Source whose weight is `10 * kindWeight(type) + (1 if IPv4 else 0)` with
`kindWeight` 5 for DHCP and 10 for firmware (iBFT); in particular the
Scenario A DHCP IPv4 lease weighs 51 and the firmware (IPv6) lease
weighs 100. -/
theorem claim_C7_theorem (ss : List Source) (l : Lease)
    (h : ∀ s ∈ ss, s.seqno ≠ l.seqno) :
    ni_objectmodel_updater_add_source ss l
      = ss ++ [{ seqno := l.seqno
                 weight := 10 * (match l.type with
                                 | AddrconfType.dhcp => 5
                                 | AddrconfType.ibft => 10
                                 | AddrconfType.sttc => 0
                                 | AddrconfType.autoconf => 0)
                           + (if l.family = AddrFamily.inet then 1 else 0)
                 lease := some l }] ∧
    (ni_updater_source_new dhcpLeaseA).weight = 51 ∧
    (ni_updater_source_new fwLeaseA).weight = 100 := by
  refine ⟨?_, rfl, rfl⟩
  rw [add_source_append l ss h]
  have hw := source_new_weight l
  have : ni_updater_source_new l
      = { seqno := l.seqno
          weight := 10 * (match l.type with
                          | AddrconfType.dhcp => 5
                          | AddrconfType.ibft => 10
                          | AddrconfType.sttc => 0
                          | AddrconfType.autoconf => 0)
                    + (if l.family = AddrFamily.inet then 1 else 0)
          lease := some l } := by
    rcases l with ⟨t, f, sq, uh, ur, hn, rv⟩
    cases t <;> rfl
  rw [this]

/-- Claim C7, witness: adding the Scenario A DHCP IPv4 lease (seqno 1)
to an empty source list appends the weight-51 source. -/
theorem claim_C7_witness :
    ni_objectmodel_updater_add_source [] dhcpLeaseA
      = [] ++ [{ seqno := dhcpLeaseA.seqno
                 weight := 10 * (match dhcpLeaseA.type with
                                 | AddrconfType.dhcp => 5
                                 | AddrconfType.ibft => 10
                                 | AddrconfType.sttc => 0
                                 | AddrconfType.autoconf => 0)
                           + (if dhcpLeaseA.family = AddrFamily.inet then 1 else 0)
                 lease := some dhcpLeaseA }] ∧
    (ni_updater_source_new dhcpLeaseA).weight = 51 ∧
    (ni_updater_source_new fwLeaseA).weight = 100 :=
  claim_C7_theorem [] dhcpLeaseA (by decide)

/-- Claim C4, counterexample: an updater with `have_backup` set and
installed seqno 5 whose restore script succeeds.  The claim requires
`installedSeqno` to be reset to the not-installed sentinel 0; the code
clears `have_backup` but leaves the seqno at 5. -/
theorem claim_C4_counterexample :
    (ni_system_updater_restore u4cex envAllOk).ok = true ∧
    (ni_system_updater_restore u4cex envAllOk).updater.have_backup = false ∧
    (ni_system_updater_restore u4cex envAllOk).updater.seqno = 5 ∧
    ¬ (ni_system_updater_restore u4cex envAllOk).updater.seqno = 0 := by
  refine ⟨rfl, rfl, rfl, by decide⟩

/-- Claim C4 (amended): restore is a no-op success when `hasBackup` is
false; otherwise, on restore-script success it clears `hasBackup` and
leaves every other updater field — in particular `installedSeqno` —
unchanged; on restore-script failure it leaves `hasBackup` true and all
state unchanged, so the restore is retried on the next pass. -/
theorem claim_C4_theorem (u : Updater) (env : ScriptEnv) :
    (u.have_backup = false →
      ni_system_updater_restore u env
        = { updater := u, calls := [], ok := true }) ∧
    (u.have_backup = true → u.proc_restore = true →
      env.restoreOk u.type = true →
      ni_system_updater_restore u env
        = { updater := { u with have_backup := false }
            calls := [ScriptCall.restore u.type], ok := true }) ∧
    (u.have_backup = true → u.proc_restore = true →
      env.restoreOk u.type = false →
      ni_system_updater_restore u env
        = { updater := u, calls := [ScriptCall.restore u.type], ok := false }) := by
  refine ⟨?_, ?_, ?_⟩ <;> intros <;>
    simp_all [ni_system_updater_restore]

/-- Claim C4, witness: the amended success case evaluated on the
concrete updater with installed seqno 5. -/
theorem claim_C4_witness :
    ni_system_updater_restore u4cex envAllOk
      = { updater := { u4cex with have_backup := false }
          calls := [ScriptCall.restore u4cex.type], ok := true } :=
  (claim_C4_theorem u4cex envAllOk).2.1 rfl rfl rfl

/-- Claim C5: with no backup held and a failing backup script, install
aborts the pass without invoking the install script, the updater state
(including `have_backup` and `installedSeqno`) is unchanged, and because
the state is unchanged every subsequent pass with the same script
outcome behaves identically. -/
theorem claim_C5_theorem (u : Updater) (l : Option Lease) (env : ScriptEnv)
    (h1 : u.have_backup = false) (h2 : u.proc_backup = true)
    (h3 : env.backupOk u.type = false) :
    ni_system_updater_install u l env
      = { updater := u, calls := [ScriptCall.backup u.type], ok := false } ∧
    (∀ c ∈ (ni_system_updater_install u l env).calls,
       c ≠ ScriptCall.install u.type) ∧
    ni_system_updater_install (ni_system_updater_install u l env).updater l env
      = ni_system_updater_install u l env := by
  have hmain : ni_system_updater_install u l env
      = { updater := u, calls := [ScriptCall.backup u.type], ok := false } := by
    simp [ni_system_updater_install, ni_system_updater_backup, h1, h2, h3]
  refine ⟨hmain, ?_, ?_⟩
  · rw [hmain]
    intro c hc
    have hcb : c = ScriptCall.backup u.type := by simpa using hc
    subst hcb
    simp
  · rw [hmain]
    exact hmain

/-- Claim C5, witness: the fresh hostname updater under a failing backup
script. -/
theorem claim_C5_witness :
    ni_system_updater_install hostnameU0 none envBackupFails
      = { updater := hostnameU0
          calls := [ScriptCall.backup hostnameU0.type], ok := false } ∧
    (∀ c ∈ (ni_system_updater_install hostnameU0 none envBackupFails).calls,
       c ≠ ScriptCall.install hostnameU0.type) ∧
    ni_system_updater_install
        (ni_system_updater_install hostnameU0 none envBackupFails).updater
        none envBackupFails
      = ni_system_updater_install hostnameU0 none envBackupFails :=
  claim_C5_theorem hostnameU0 none envBackupFails rfl rfl rfl

/-- Claim C1, evaluated at its failing input (Scenario A): arbitration
does pick the firmware Source (weight 100) and the backup succeeds, but
the install fast-fails for the hostname kind itself — no install script
is invoked, `installedSeqno` stays at the sentinel 0, and the hostname
updater is permanently disabled — although hostname is inside the
supported set the claim describes. -/
theorem claim_C1_theorem :
    ni_objectmodel_updater_select_source scenarioA.st.hostnameU
      = some { seqno := 2, weight := 100, lease := some fwLeaseA } ∧
    scenarioA.calls = [ScriptCall.backup UpdateKind.hostname] ∧
    scenarioA.st.hostnameU.have_backup = true ∧
    ScriptCall.install UpdateKind.hostname ∉ scenarioA.calls ∧
    scenarioA.st.hostnameU.enabled = false ∧
    scenarioA.st.hostnameU.seqno = 0 := by
  refine ⟨rfl, rfl, rfl, by decide, rfl, rfl⟩

/-- Claim C3, evaluated at its failing input: a pass with every lease
withdrawn over an enabled updater holding two consecutive stale Sources.
The purge leaves the second stale Source on the list (the loop steps
into the freed node and the next unlink writes there instead of into the
live chain), selection then returns that dangling Source, so the restore
script never runs and `hasBackup` stays true. -/
theorem claim_C3_theorem :
    purgeSources [srcLow, srcHigh] = [srcHigh] ∧
    stalePass.st.hostnameU.sources = [srcHigh] ∧
    ¬ stalePass.st.hostnameU.sources = [] ∧
    stalePass.calls = [] ∧
    stalePass.st.hostnameU.have_backup = true := by
  refine ⟨rfl, rfl, by decide, rfl, rfl⟩

/-- Claim C10: `ni_system_update_all` returns 1 on every invocation, for
every prior state, lease set and script outcome, and consequently
`ni_system_update_from_lease` always returns 0. -/
theorem claim_C10_theorem (st : SysState) (leases : List Lease)
    (env : ScriptEnv) (l : Lease) :
    (ni_system_update_all st leases env).ret = true ∧
    (ni_system_update_from_lease l st leases env).2 = 0 := by
  exact ⟨rfl, rfl⟩

/-- Claim C8: `acquire` with zero arguments fails with
`DBUS_ERROR_INVALID_ARGS` before `ni_dhcp_acquire` is ever called; when
negotiation cannot start (`ni_dhcp_acquire < 0`) it fails with
`DBUS_ERROR_FAILED` carrying the device name and the underlying reason;
otherwise it returns TRUE immediately. -/
theorem claim_C8_theorem (dev : String) (parse : Option DBusErr) (rv : Int)
    (strerror : Int → String) :
    (__wicked_dbus_dhcp4_acquire_svc dev 0 parse rv strerror
      = { ret := false
          error := some { name := DBusErrName.invalidArgs
                          message := "Missing arguments in __wicked_dbus_dhcp4_acquire_svc" }
          acquireCalled := false }) ∧
    (∀ argc : Nat, 0 < argc → parse = none → rv < 0 →
      __wicked_dbus_dhcp4_acquire_svc dev argc parse rv strerror
        = { ret := false
            error := some { name := DBusErrName.failed
                            message := "Cannot configure interface " ++ dev
                                       ++ ": " ++ strerror rv }
            acquireCalled := true }) ∧
    (∀ argc : Nat, 0 < argc → parse = none → 0 ≤ rv →
      __wicked_dbus_dhcp4_acquire_svc dev argc parse rv strerror
        = { ret := true, error := none, acquireCalled := true }) := by
  refine ⟨?_, ?_, ?_⟩
  · simp [__wicked_dbus_dhcp4_acquire_svc]
  · intro argc hargc hp hrv
    subst hp
    have hne : ¬ argc = 0 := by omega
    simp [__wicked_dbus_dhcp4_acquire_svc, hne, hrv]
  · intro argc hargc hp hrv
    subst hp
    have hne : ¬ argc = 0 := by omega
    have hnn : ¬ rv < 0 := by omega
    simp [__wicked_dbus_dhcp4_acquire_svc, hne, hnn]

/-- Claim C8, witness: device eth0, one argument, parse succeeding,
`ni_dhcp_acquire` returning -1. -/
theorem claim_C8_witness :
    __wicked_dbus_dhcp4_acquire_svc devEth0 1 none (-1) strerrGeneral
      = { ret := false
          error := some { name := DBusErrName.failed
                          message := "Cannot configure interface eth0: General failure" }
          acquireCalled := true } :=
  (claim_C8_theorem devEth0 none (-1) strerrGeneral).2.1 1
    (by decide) rfl (by decide)

/-- Claim C9: `drop` with an identifier argument that is not exactly 16
bytes fails with `DBUS_ERROR_INVALID_ARGS` and never attempts the
release; with no identifier argument it hands the all-zero identifier to
`ni_dhcp_release`; a failing release becomes `DBUS_ERROR_FAILED`
carrying the device name and the underlying reason. -/
theorem claim_C9_theorem (dev : String) (releaseRv : List Nat → Int)
    (strerror : Int → String) :
    (∀ bytes : List Nat, bytes.length ≠ 16 →
      __wicked_dbus_dhcp4_drop_svc dev (some (DBusValue.byteArray bytes))
          releaseRv strerror
        = { ret := false
            error := some { name := DBusErrName.invalidArgs
                            message := "bad uuid argument" }
            releaseCalledWith := none }) ∧
    (__wicked_dbus_dhcp4_drop_svc dev (some DBusValue.nonArray)
        releaseRv strerror
      = { ret := false
          error := some { name := DBusErrName.invalidArgs
                          message := "bad uuid argument" }
          releaseCalledWith := none }) ∧
    ((__wicked_dbus_dhcp4_drop_svc dev none releaseRv strerror).releaseCalledWith
      = some (List.replicate 16 0)) ∧
    (releaseRv (List.replicate 16 0) < 0 →
      __wicked_dbus_dhcp4_drop_svc dev none releaseRv strerror
        = { ret := false
            error := some { name := DBusErrName.failed
                            message := "Unable to drop DHCP lease for interface "
                                       ++ dev ++ ": "
                                       ++ strerror (releaseRv (List.replicate 16 0)) }
            releaseCalledWith := some (List.replicate 16 0) }) := by
  refine ⟨?_, ?_, ?_, ?_⟩
  · intro bytes hlen
    have hno : ¬ (16 ≤ bytes.length ∧ bytes.length ≤ 16) := by omega
    simp [__wicked_dbus_dhcp4_drop_svc, ni_dbus_variant_get_byte_array_minmax, hno]
  · rfl
  · have e : __wicked_dbus_dhcp4_drop_svc dev none releaseRv strerror
        = ni_dhcp_release_step dev (List.replicate 16 0) releaseRv strerror := rfl
    rw [e]
    unfold ni_dhcp_release_step
    by_cases h : releaseRv (List.replicate 16 0) < 0
    · rw [if_pos h]
    · rw [if_neg h]
  · intro h
    have e : __wicked_dbus_dhcp4_drop_svc dev none releaseRv strerror
        = ni_dhcp_release_step dev (List.replicate 16 0) releaseRv strerror := rfl
    rw [e]
    unfold ni_dhcp_release_step
    rw [if_pos h]

/-- Claim C9, witness: a three-byte identifier is rejected with
`DBUS_ERROR_INVALID_ARGS` and the release is never attempted. -/
theorem claim_C9_witness :
    __wicked_dbus_dhcp4_drop_svc devEth0 (some (DBusValue.byteArray [1, 2, 3]))
        relZero strerrGeneral
      = { ret := false
          error := some { name := DBusErrName.invalidArgs
                          message := "bad uuid argument" }
          releaseCalledWith := none } :=
  (claim_C9_theorem devEth0 relZero strerrGeneral).1 [1, 2, 3] (by decide)

end Wicked
